import Mathlib

set_option maxRecDepth 40000
set_option exponentiation.threshold 2000

/-!
Verification of the corpus_parser pipeline (CSV/TSV → CoNLL-U serializer and
CoNLL-U → in-memory corpus loader), shallowly embedded from
`src/corpus_parser.py`.

Text is modelled as lists of characters; a file is a list of lines.  The
`pandas` row iteration is modelled by supplying the serializer with the list
of parsed data rows, and the `conllu` library's parse step (an external
dependency whose source is not part of the repository) is modelled from the
spec's description of standard CoNLL-U block syntax.
-/

/-- A piece of text: Python `str` modelled as a list of characters. -/
abbrev Str := List Char

/-- One line of a text file. -/
abbrev Line := List Char

/-- The characters stripped by Python's `str.strip()` (ASCII whitespace). -/
def pyIsSpace (c : Char) : Bool :=
  c = ' ' || c = '\t' || c = '\n' || c = '\r' || c = '\x0b' || c = '\x0c'

/-- Python `str.strip()`: remove leading and trailing whitespace. -/
def pyStrip (s : Str) : Str :=
  ((s.dropWhile pyIsSpace).reverse.dropWhile pyIsSpace).reverse

/-- Python `str.count(c)` for a single-character needle. -/
def countChar (c : Char) : List Char → Nat
  | [] => 0
  | a :: rest => (if a = c then 1 else 0) + countChar c rest

/-- Python `line.startswith('#')`. -/
def startsHash (l : Line) : Bool :=
  match l with
  | c :: _ => c = '#'
  | [] => false

/-- Split a list of characters at every occurrence of `sep`
(Python `str.split(sep)` for a one-character separator). -/
def splitSep (sep : Char) : List Char → List (List Char)
  | [] => [[]]
  | c :: rest =>
    match splitSep sep rest with
    | [] => [[]]
    | f :: fs => if c = sep then [] :: f :: fs else (c :: f) :: fs

/-- Split at the first occurrence of `sep` (Python `str.split(sep, 1)`),
returning the parts before and after it, or `none` when `sep` is absent. -/
def splitFirst (sep : Char) : List Char → Option (List Char × List Char)
  | [] => Option.none
  | c :: rest =>
    if c = sep then some ([], rest)
    else (splitFirst sep rest).map (fun p => (c :: p.1, p.2))

/-- Python `sep.join(parts)`. -/
def pyJoin (sep : Str) : List Str → Str
  | [] => []
  | [f] => f
  | f :: g :: rest => f ++ sep ++ pyJoin sep (g :: rest)

/-! ## A model of Python's `float(str)` / `int(float(str))`

`Token.__init__` runs `int(float(x))` on the `id` and `head` fields inside a
`try` that catches only `ValueError` and `TypeError`.  We model the accepted
syntax of `float` over ASCII text: optional whitespace and sign, then either
`inf`/`infinity`/`nan` (case-insensitive) or a decimal literal with optional
fraction and exponent, with underscores permitted between digits.  Finite
values are represented exactly as `mantissa · 10 ^ exponent`; a decimal whose
magnitude reaches the IEEE-754 double rounding threshold becomes infinite,
as in CPython. -/

/-- ASCII digit test. -/
def isAsciiDigit (c : Char) : Bool := '0' ≤ c && c ≤ '9'

/-- Numeric value of an ASCII digit. -/
def digitVal (c : Char) : Nat := c.toNat - '0'.toNat

/-- Consume a maximal run of digits (underscores allowed between digits),
accumulating the value `v` and the digit count `n`; returns the value, the
count and the unconsumed remainder. -/
def parseDigitsAux (v n : Nat) : List Char → Nat × Nat × List Char
  | [] => (v, n, [])
  | c :: rest =>
    if isAsciiDigit c then parseDigitsAux (10 * v + digitVal c) (n + 1) rest
    else if c = '_' then
      match rest with
      | c2 :: rest2 =>
        if isAsciiDigit c2 then parseDigitsAux (10 * v + digitVal c2) (n + 1) rest2
        else (v, n, c :: rest)
      | [] => (v, n, [c])
    else (v, n, c :: rest)

/-- Parse `digits [. digits]` or `. digits`, returning the mantissa, the
(non-positive) base-10 exponent contributed by the fraction, and the
remainder. -/
def parseNumber : List Char → Option (Nat × Int × List Char)
  | [] => Option.none
  | c :: rest =>
    if isAsciiDigit c then
      match parseDigitsAux 0 0 (c :: rest) with
      | (v1, _, r1) =>
        match r1 with
        | '.' :: r2 =>
          match r2 with
          | c2 :: _ =>
            if isAsciiDigit c2 then
              match parseDigitsAux 0 0 r2 with
              | (v2, n2, r3) => some (v1 * 10 ^ n2 + v2, -(n2 : Int), r3)
            else some (v1, 0, r2)
          | [] => some (v1, 0, [])
        | _ => some (v1, 0, r1)
    else if c = '.' then
      match rest with
      | c2 :: _ =>
        if isAsciiDigit c2 then
          match parseDigitsAux 0 0 rest with
          | (v2, n2, r3) => some (v2, -(n2 : Int), r3)
        else Option.none
      | [] => Option.none
    else Option.none

/-- Parse an exponent suffix `e[±]digits`. -/
def parseExpPart : List Char → Option (Int × List Char)
  | [] => Option.none
  | c :: rest =>
    if c = 'e' || c = 'E' then
      match rest with
      | '+' :: r2 =>
        match r2 with
        | c2 :: _ =>
          if isAsciiDigit c2 then
            match parseDigitsAux 0 0 r2 with
            | (v, _, r3) => some ((v : Int), r3)
          else Option.none
        | [] => Option.none
      | '-' :: r2 =>
        match r2 with
        | c2 :: _ =>
          if isAsciiDigit c2 then
            match parseDigitsAux 0 0 r2 with
            | (v, _, r3) => some (-(v : Int), r3)
          else Option.none
        | [] => Option.none
      | c2 :: _ =>
        if isAsciiDigit c2 then
          match parseDigitsAux 0 0 rest with
          | (v, _, r3) => some ((v : Int), r3)
        else Option.none
      | [] => Option.none
    else Option.none

/-- ASCII lowercasing (for the case-insensitive `inf` / `nan` spellings). -/
def lowerAscii (c : Char) : Char :=
  if 'A' ≤ c && c ≤ 'Z' then Char.ofNat (c.toNat + 32) else c

/-- The value of a Python `float(...)` call on a string. -/
inductive PyFloat where
  | finite (m : Int) (e : Int)
  | inf
  | neginf
  | nan
deriving DecidableEq, Repr

/-- Smallest decimal magnitude that IEEE-754 double rounding sends to
infinity (the midpoint between the largest finite double and `2^1024`). -/
def dblOverflowCutoff : Nat := 2 ^ 1024 - 2 ^ 970

/-- Does `m · 10 ^ e` reach the double-overflow threshold? -/
def floatOverflows (m : Nat) (e : Int) : Bool :=
  if 0 ≤ e then dblOverflowCutoff ≤ m * 10 ^ e.toNat
  else dblOverflowCutoff * 10 ^ (-e).toNat ≤ m

/-- Classify a parsed finite decimal `sgn · m · 10 ^ e` as a float value. -/
def mkFinite (sgn : Int) (m : Nat) (e : Int) : Option PyFloat :=
  if m = 0 then some (.finite 0 0)
  else if floatOverflows m e then some (if sgn = 1 then .inf else .neginf)
  else some (.finite (sgn * m) e)

/-- Python `float(s)` on a string: `some` value on success, `none` when it
raises `ValueError`. -/
def parsePyFloat (s0 : Str) : Option PyFloat :=
  let s := pyStrip s0
  let p : Int × Str :=
    match s with
    | '+' :: r => (1, r)
    | '-' :: r => (-1, r)
    | _ => (1, s)
  let sgn := p.1
  let s1 := p.2
  let low := s1.map lowerAscii
  if low = "inf".toList || low = "infinity".toList then
    some (if sgn = 1 then .inf else .neginf)
  else if low = "nan".toList then some .nan
  else
    match parseNumber s1 with
    | Option.none => Option.none
    | some (m, fe, r1) =>
      match r1 with
      | [] => mkFinite sgn m fe
      | _ =>
        match parseExpPart r1 with
        | some (e2, r2) => if r2 = [] then mkFinite sgn m (fe + e2) else Option.none
        | Option.none => Option.none

/-- Python `int(f)` on a finite float `m · 10 ^ e`: truncation toward zero. -/
def truncFinite (m e : Int) : Int :=
  if 0 ≤ e then m * 10 ^ e.toNat
  else Int.sign m * ((m.natAbs / 10 ^ (-e).toNat : Nat) : Int)

/-- The value a Token attribute can hold after numeric coercion. -/
inductive PyVal where
  | int (n : Int)
  | str (s : Str)
  | none
deriving DecidableEq, Repr

/-- The `id`/`head` coercion in `Token.__init__`:
`int(float(x))` guarded by `except (ValueError, TypeError)`.
A `ValueError` from `float(...)` or from `int(nan)` is caught and the original
text is kept; `int(±inf)` raises `OverflowError`, which the `except` clause
does not catch, so construction fails (`Except.error`). -/
def coerceIdHead (s : Str) : Except Unit PyVal :=
  match parsePyFloat s with
  | Option.none => .ok (.str s)
  | some .nan => .ok (.str s)
  | some .inf => .error ()
  | some .neginf => .error ()
  | some (.finite m e) => .ok (.int (truncFinite m e))

/-- Is an `Except` value a success? -/
def exceptOk {ε α : Type} (e : Except ε α) : Bool :=
  match e with
  | .ok _ => true
  | .error _ => false

/-! ## Serializer (`_convert_csv_to_conllu`)

A parsed data row of the input CSV/TSV (the `pandas` DataFrame is read with
`dtype=str, keep_default_na=False`, so every present cell is a string; an
absent column is `Option.none` and `row.get(col, default)` is `rowGetD`). -/

/-- One data row of the delimited input file, by source column name. -/
structure Row where
  id : Option Str
  transcription : Option Str
  lemma_ : Option Str
  postag : Option Str
  postfeatures : Option Str
  head : Option Str
  deprel : Option Str
  deps : Option Str
  meaning : Option Str
deriving DecidableEq

/-- `row.get(col, default)`. -/
def rowGetD (o : Option Str) (d : Str) : Str := o.getD d

/-- `_sanitize_field`: replace embedded tab/newline/carriage-return with a
space, strip, and render an empty result as the placeholder. -/
def sanitizeChar (c : Char) : Char :=
  if c = '\t' || c = '\n' || c = '\r' then ' ' else c

/-- `_sanitize_field` on a present string value. -/
def sanitizeField (t : Str) : Str :=
  if pyStrip (t.map sanitizeChar) = [] then "_".toList
  else pyStrip (t.map sanitizeChar)

/-- Is this row a sentence-boundary marker?  (`id` and `lemma` both empty or
the placeholder after stripping.) -/
def isSentenceBoundary (r : Row) : Bool :=
  let idv := pyStrip (rowGetD r.id [])
  let lv := pyStrip (rowGetD r.lemma_ [])
  (idv = [] || idv = "_".toList) && (lv = [] || lv = "_".toList)

/-- The 10 CoNLL-U output fields produced from one token row
(`conllu_token` in `_convert_csv_to_conllu`). -/
def rowFields (r : Row) : List Str :=
  [ sanitizeField (rowGetD r.id "_".toList),
    sanitizeField (rowGetD r.transcription "_".toList),
    sanitizeField (rowGetD r.lemma_ "_".toList),
    sanitizeField (rowGetD r.postag "_".toList),
    "_".toList,
    sanitizeField (rowGetD r.postfeatures "_".toList),
    sanitizeField (rowGetD r.head "_".toList),
    sanitizeField (rowGetD r.deprel "_".toList),
    sanitizeField (rowGetD r.deps "_".toList),
    sanitizeField (rowGetD r.meaning "_".toList) ]

/-- The `# sent_id = N` comment line. -/
def sentIdLine (sid : Nat) : Line :=
  "# sent_id = ".toList ++ (Nat.repr sid).toList

/-- The `# text = ...` comment line: space-joined FORM values. -/
def textLine (toks : List (List Str)) : Line :=
  "# text = ".toList ++ pyJoin " ".toList (toks.map (fun t => t.getD 1 []))

/-- One emitted token line: the 10 fields joined by tabs. -/
def tokenLine (t : List Str) : Line := pyJoin "\t".toList t

/-- One emitted sentence block: sent-id comment, text comment, token lines,
then a blank line. -/
def mkBlock (sid : Nat) (toks : List (List Str)) : List Line :=
  sentIdLine sid :: textLine toks :: toks.map tokenLine ++ [[]]

/-- The row loop of `_convert_csv_to_conllu`: `buf` is
`current_sentence_tokens`, `sid` is `sentence_id_counter`. -/
def serializeAux : List Row → List (List Str) → Nat → List Line
  | [], buf, sid => if buf.isEmpty then [] else mkBlock sid buf
  | r :: rest, buf, sid =>
    if isSentenceBoundary r then
      if buf.isEmpty then serializeAux rest buf sid
      else mkBlock sid buf ++ serializeAux rest [] (sid + 1)
    else serializeAux rest (buf ++ [rowFields r]) sid

/-- The lines written for one input file's rows. -/
def serialize (rows : List Row) : List Line := serializeAux rows [] 1

/-- Consecutive sentence blocks numbered from `sid`. -/
def blocksFrom : Nat → List (List (List Str)) → List Line
  | _, [] => []
  | sid, ts :: rest => mkBlock sid ts ++ blocksFrom (sid + 1) rest

/-- Delimiter inference: sample the first 2048 characters; tab wins ties. -/
def inferSep (content : Str) : Char :=
  if countChar ',' (content.take 2048) ≤ countChar '\t' (content.take 2048) then '\t'
  else ','

/-- One `_convert_csv_to_conllu` call inside its `try`/`except`: reading and
decoding the input file is external I/O, modelled as an `Except` input; a
failure is caught, produces no output file, and logs one error message. -/
def convertFile (input : Except Unit (List Row)) : Option (List Line) × Nat :=
  match input with
  | .ok rows => (some (serialize rows), 0)
  | .error _ => (Option.none, 1)

/-- `_process_directory`: convert each file in order, collecting the per-file
results and the total number of logged failures. -/
def processDirectory : List (Except Unit (List Row)) → List (Option (List Line)) × Nat
  | [] => ([], 0)
  | f :: rest =>
    match convertFile f, processDirectory rest with
    | (o, e), (os, es) => (o :: os, e + es)

/-! ## Loader (`_load_corpus_from_conllu`) -/

/-- The line-validity filter: keep a line iff it is a comment, is blank, or
has exactly 9 tab characters. -/
def lineValid (l : Line) : Bool :=
  startsHash l || pyStrip l == [] || countChar '\t' l == 9

/-- The `clean_lines` filtering step. -/
def cleanLines (ls : List Line) : List Line := ls.filter lineValid

/-- Modelled from the spec: the `conllu` library (an external dependency not
in the repository) splits the text into sentence blocks at blank lines; a
block is a maximal run of non-blank lines. -/
def splitBlocksAux (acc : List Line) : List Line → List (List Line)
  | [] => if acc.isEmpty then [] else [acc.reverse]
  | l :: rest =>
    if pyStrip l = [] then
      if acc.isEmpty then splitBlocksAux [] rest
      else acc.reverse :: splitBlocksAux [] rest
    else splitBlocksAux (l :: acc) rest

/-- Modelled from the spec: split cleaned lines into sentence blocks. -/
def splitBlocks (ls : List Line) : List (List Line) := splitBlocksAux [] ls

/-- Modelled from the spec: one token line as parsed by the `conllu` library
with this repository's custom field parsers — all ten fields kept as raw
text, `id` and `head` in particular (`custom_field_parsers` overrides). -/
structure LibToken where
  id : Str
  form : Str
  lemma_ : Str
  upos : Str
  xpos : Str
  feats : Str
  head : Str
  deprel : Str
  deps : Str
  misc : Str
deriving DecidableEq

/-- Assign the tab-split parts of a token line to the 10 field names in
order. -/
def fieldsToToken (fs : List Str) : LibToken :=
  { id := fs.getD 0 [], form := fs.getD 1 [], lemma_ := fs.getD 2 [],
    upos := fs.getD 3 [], xpos := fs.getD 4 [], feats := fs.getD 5 [],
    head := fs.getD 6 [], deprel := fs.getD 7 [], deps := fs.getD 8 [],
    misc := fs.getD 9 [] }

/-- The in-memory `Token` object: all 10 CoNLL-U fields, with `id` and
`head` numerically coerced at construction. -/
structure Token where
  id : PyVal
  form : Str
  lemma_ : Str
  upos : Str
  xpos : Str
  feats : Str
  head : PyVal
  deprel : Str
  deps : Str
  misc : Str
deriving DecidableEq

/-- `Token.__init__`: coerce `id` then `head`; an uncaught exception aborts
construction. -/
def mkToken (t : LibToken) : Except Unit Token :=
  match coerceIdHead t.id with
  | .error e => .error e
  | .ok i =>
    match coerceIdHead t.head with
    | .error e => .error e
    | .ok h =>
      .ok { id := i, form := t.form, lemma_ := t.lemma_, upos := t.upos,
            xpos := t.xpos, feats := t.feats, head := h, deprel := t.deprel,
            deps := t.deps, misc := t.misc }

/-- Modelled from the spec: a comment line contributes a metadata
`key = value` pair (split at the first `=`, both sides stripped); a comment
without `=` contributes nothing. -/
def parseCommentLine (l : Line) : Option (Str × Str) :=
  match l with
  | '#' :: rest =>
    match splitFirst '=' rest with
    | some (k, v) => some (pyStrip k, pyStrip v)
    | Option.none => Option.none
  | _ => Option.none

/-- The in-memory `Sentence` object. -/
structure Sentence where
  metadata : List (Str × Str)
  sentence_id : Option Str
  file_name : Str
  tokens : List Token
deriving DecidableEq

/-- Construct the `Token` list of one sentence
(`[Token(t) for t in sentence_token_list]`): the first construction failure
aborts. -/
def tokensMapM : List LibToken → Except Unit (List Token)
  | [] => .ok []
  | t :: rest =>
    match mkToken t with
    | .error e => .error e
    | .ok tok =>
      match tokensMapM rest with
      | .error e => .error e
      | .ok toks => .ok (tok :: toks)

/-- Build one `Sentence` from one block: non-comment lines are token lines
(split on tabs), comment lines give the metadata, `sentence_id` is the
`sent_id` metadata entry. -/
def mkSentence (fname : Str) (b : List Line) : Except Unit Sentence :=
  match tokensMapM ((b.filter (fun l => !startsHash l)).map
      (fun l => fieldsToToken (splitSep '\t' l))) with
  | .error e => .error e
  | .ok toks =>
    let md := b.filterMap parseCommentLine
    .ok { metadata := md,
          sentence_id := (md.find? (fun p => p.1 == "sent_id".toList)).map (fun p => p.2),
          file_name := fname,
          tokens := toks }

/-- Build every `Sentence` of one file, in block order; a parse failure
aborts the whole loading stage (no per-file containment in the loader). -/
def sentencesMapM (fname : Str) : List (List Line) → Except Unit (List Sentence)
  | [] => .ok []
  | b :: rest =>
    match mkSentence fname b with
    | .error e => .error e
    | .ok s =>
      match sentencesMapM fname rest with
      | .error e => .error e
      | .ok ss => .ok (s :: ss)

/-- `_load_corpus_from_conllu` on one file's lines: filter invalid lines,
split into blocks, build the sentences. -/
def loadFile (fname : Str) (ls : List Line) : Except Unit (List Sentence) :=
  sentencesMapM fname (splitBlocks (cleanLines ls))

/-- Decidable equality for `Except`, so claims can be checked on concrete
inputs. -/
instance {e a : Type} [DecidableEq e] [DecidableEq a] : DecidableEq (Except e a) := fun x y =>
  match x, y with
  | .ok v, .ok w =>
    if h : v = w then isTrue (by rw [h]) else isFalse (by intro hc; cases hc; exact h rfl)
  | .error v, .error w =>
    if h : v = w then isTrue (by rw [h]) else isFalse (by intro hc; cases hc; exact h rfl)
  | .ok _, .error _ => isFalse (by intro hc; cases hc)
  | .error _, .ok _ => isFalse (by intro hc; cases hc)

/-- A token row that round-trips cleanly: it is not a sentence boundary, its
sanitized `id` does not begin with the loader's comment marker, and its `id`
and `head` fields survive `Token` construction without an uncaught
exception. -/
def rowWellFormed (r : Row) : Bool :=
  !(isSentenceBoundary r) &&
  !(startsHash (sanitizeField (rowGetD r.id "_".toList))) &&
  exceptOk (coerceIdHead (sanitizeField (rowGetD r.id "_".toList))) &&
  exceptOk (coerceIdHead (sanitizeField (rowGetD r.head "_".toList)))

/-! ## Concrete inputs used to check the properties on closed instances -/

/-- A simple annotated token row. -/
def rowHello : Row :=
  { id := some "1".toList, transcription := some "hello".toList,
    lemma_ := some "h".toList, postag := some "X".toList,
    postfeatures := Option.none, head := some "0".toList,
    deprel := some "root".toList, deps := Option.none, meaning := Option.none }

/-- A second annotated token row. -/
def rowWorld : Row :=
  { rowHello with id := some "2".toList, transcription := some "world".toList,
                  lemma_ := some "w".toList }

/-- A sentence-boundary row (`id` empty, `lemma` the placeholder). -/
def rowBoundaryEx : Row :=
  { rowHello with id := some "".toList, lemma_ := some "_".toList }

/-- A token row whose `id` begins with the comment marker. -/
def rowHashId : Row := { rowHello with id := some "#1".toList }

/-- A token row whose `id` is the text `inf`. -/
def rowInfId : Row := { rowHello with id := some "inf".toList }

/-- A parsed CoNLL-U token line with a float-like `id` and a range `head`. -/
def libTokCoerce : LibToken :=
  { id := "3.0".toList, form := "hello".toList, lemma_ := "h".toList,
    upos := "X".toList, xpos := "_".toList, feats := "_".toList,
    head := "1-2".toList, deprel := "root".toList, deps := "_".toList,
    misc := "_".toList }

/-- A parsed CoNLL-U token line whose `id` and `head` are the placeholder. -/
def libTokUnderscore : LibToken :=
  { libTokCoerce with id := "_".toList, head := "_".toList }

/-- A parsed CoNLL-U token line whose `id` is the text `inf`. -/
def libTokInf : LibToken := { libTokCoerce with id := "inf".toList }

/-- A CoNLL-U file holding two valid one-token sentences with a 5-field
malformed line between them. -/
def scenarioLines : List Line :=
  [ "# sent_id = 1".toList,
    "1\tHello\th\tX\t_\t_\t0\troot\t_\t_".toList,
    [],
    "1\ta\tb\tc\td".toList,
    "# sent_id = 2".toList,
    "1\tWorld\tw\tX\t_\t_\t0\troot\t_\t_".toList,
    [] ]

/-- The malformed 5-field line of `scenarioLines`. -/
def badLine : Line := "1\ta\tb\tc\td".toList

/-- The Token produced from `libTokCoerce`. -/
def tokCoerce : Token :=
  { id := PyVal.int 3, form := "hello".toList, lemma_ := "h".toList,
    upos := "X".toList, xpos := "_".toList, feats := "_".toList,
    head := PyVal.str "1-2".toList, deprel := "root".toList,
    deps := "_".toList, misc := "_".toList }

/-- The Token produced from `libTokUnderscore`. -/
def tokUnderscoreRes : Token :=
  { tokCoerce with id := PyVal.str "_".toList, head := PyVal.str "_".toList }

/-! ## Helper lemmas -/

/-- The first element surviving `dropWhile` fails the predicate. -/
theorem dropWhile_head_false {p : Char → Bool} :
    ∀ {l : List Char} {a : Char} {as : List Char}, l.dropWhile p = a :: as → p a = false := by
  intro l
  induction l with
  | nil => intro a as h; simp [List.dropWhile] at h
  | cons c rest ih =>
    intro a as h
    rw [List.dropWhile_cons] at h
    split at h
    · exact ih h
    · next hc => cases h; simpa using hc

/-- Members of `dropWhile p l` are members of `l`. -/
theorem mem_dropWhile {p : Char → Bool} {c : Char} :
    ∀ {l : List Char}, c ∈ l.dropWhile p → c ∈ l := by
  intro l
  induction l with
  | nil => intro h; simp [List.dropWhile] at h
  | cons a rest ih =>
    intro h
    rw [List.dropWhile_cons] at h
    split at h
    · exact List.mem_cons_of_mem _ (ih h)
    · exact h

/-- Members of the stripped string are members of the original. -/
theorem mem_pyStrip {c : Char} {s : Str} (h : c ∈ pyStrip s) : c ∈ s := by
  unfold pyStrip at h
  rw [List.mem_reverse] at h
  exact mem_dropWhile (List.mem_reverse.mp (mem_dropWhile h))

/-- A string containing a non-whitespace character does not strip to empty. -/
theorem pyStrip_ne_nil_of_mem {c : Char} {l : Str} (hm : c ∈ l)
    (hc : pyIsSpace c = false) : pyStrip l ≠ [] := by
  intro h
  unfold pyStrip at h
  rw [List.reverse_eq_nil_iff, List.dropWhile_eq_nil_iff] at h
  have hsplit : c ∈ l.takeWhile pyIsSpace ++ l.dropWhile pyIsSpace := by
    rw [List.takeWhile_append_dropWhile]; exact hm
  have hcd : c ∈ l.dropWhile pyIsSpace := by
    rcases List.mem_append.mp hsplit with h1 | h2
    · exact absurd (List.mem_takeWhile_imp h1) (by simp [hc])
    · exact h2
  exact absurd (h c (List.mem_reverse.mpr hcd)) (by simp [hc])

/-- A nonempty stripped string contains a non-whitespace character. -/
theorem pyStrip_has_nonspace {l : Str} (h : pyStrip l ≠ []) :
    ∃ c ∈ pyStrip l, pyIsSpace c = false := by
  unfold pyStrip at *
  cases hz : ((l.dropWhile pyIsSpace).reverse).dropWhile pyIsSpace with
  | nil => rw [hz] at h; simp at h
  | cons a as =>
    refine ⟨a, ?_, dropWhile_head_false hz⟩
    exact List.mem_reverse.mpr (List.mem_cons_self a as)

/-- `sanitizeChar` never produces a tab, newline or carriage return. -/
theorem sanitizeChar_clean (a : Char) :
    sanitizeChar a ≠ '\t' ∧ sanitizeChar a ≠ '\n' ∧ sanitizeChar a ≠ '\r' := by
  unfold sanitizeChar
  split
  · refine ⟨by decide, by decide, by decide⟩
  · next hc =>
    simp only [Bool.or_eq_true, decide_eq_true_eq, not_or] at hc
    exact ⟨hc.1.1, hc.1.2, hc.2⟩

/-- Sanitized fields contain no tab, newline or carriage return. -/
theorem sanitize_mem_clean {t : Str} {c : Char} (h : c ∈ sanitizeField t) :
    c ≠ '\t' ∧ c ≠ '\n' ∧ c ≠ '\r' := by
  unfold sanitizeField at h
  split at h
  · have hc : c = '_' := by simpa using h
    subst hc
    exact ⟨by decide, by decide, by decide⟩
  · obtain ⟨a, _, ha⟩ := List.mem_map.mp (mem_pyStrip h)
    rw [← ha]
    exact sanitizeChar_clean a

/-- Every sanitized field contains a non-whitespace character. -/
theorem sanitize_has_nonspace (t : Str) :
    ∃ c ∈ sanitizeField t, pyIsSpace c = false := by
  unfold sanitizeField
  split
  · exact ⟨'_', by decide, by decide⟩
  · next hne => exact pyStrip_has_nonspace hne

/-- Sanitized fields are never empty. -/
theorem sanitize_ne_nil (t : Str) : sanitizeField t ≠ [] := by
  obtain ⟨c, hm, _⟩ := sanitize_has_nonspace t
  intro h
  rw [h] at hm
  simp at hm

/-- `countChar` distributes over append. -/
theorem countChar_append (c : Char) (a b : List Char) :
    countChar c (a ++ b) = countChar c a + countChar c b := by
  induction a with
  | nil => simp [countChar]
  | cons x rest ih => simp [countChar, ih]; omega

/-- A list without `c` has `countChar c` zero. -/
theorem countChar_eq_zero {c : Char} {l : List Char} (h : ∀ x ∈ l, x ≠ c) :
    countChar c l = 0 := by
  induction l with
  | nil => rfl
  | cons x rest ih =>
    have hx : x ≠ c := h x (List.mem_cons_self x rest)
    simp [countChar, hx]
    exact ih (fun y hy => h y (List.mem_cons_of_mem x hy))

/-- A member of a joined part is a member of the join. -/
theorem mem_pyJoin {sep : Str} {c : Char} {f : Str} :
    ∀ {fs : List Str}, f ∈ fs → c ∈ f → c ∈ pyJoin sep fs := by
  intro fs
  induction fs with
  | nil => intro h; simp at h
  | cons g rest ih =>
    intro hf hc
    cases rest with
    | nil =>
      have : f = g := by simpa using hf
      subst this
      simpa [pyJoin] using hc
    | cons g2 rest2 =>
      rcases List.mem_cons.mp hf with h1 | h2
      · subst h1
        simp only [pyJoin, List.append_assoc, List.mem_append]
        exact Or.inl hc
      · simp only [pyJoin, List.append_assoc, List.mem_append]
        exact Or.inr (Or.inr (ih h2 hc))

/-- Joining `n` separator-free fields with the separator yields `n - 1`
separator occurrences. -/
theorem countChar_pyJoin {s : Char} :
    ∀ {fs : List Str}, fs ≠ [] → (∀ f ∈ fs, ∀ x ∈ f, x ≠ s) →
      countChar s (pyJoin [s] fs) = fs.length - 1 := by
  intro fs
  induction fs with
  | nil => intro h; exact absurd rfl h
  | cons g rest ih =>
    intro _ hclean
    cases rest with
    | nil =>
      simp only [pyJoin, List.length_cons, List.length_nil]
      rw [countChar_eq_zero (hclean g (List.mem_cons_self g []))]
    | cons g2 rest2 =>
      have h1 : countChar s (pyJoin [s] (g2 :: rest2)) = (g2 :: rest2).length - 1 :=
        ih (by simp) (fun f hf => hclean f (List.mem_cons_of_mem g hf))
      simp only [pyJoin, countChar_append]
      rw [countChar_eq_zero (hclean g (List.mem_cons_self g _)), h1]
      simp [countChar]
      omega

/-- `splitSep` never returns the empty list. -/
theorem splitSep_ne_nil (sep : Char) : ∀ l : List Char, splitSep sep l ≠ [] := by
  intro l
  cases l with
  | nil => simp [splitSep]
  | cons c rest =>
    simp only [splitSep]
    split
    · simp
    · split <;> simp

/-- Splitting a separator-free string yields that string alone. -/
theorem splitSep_no_sep {sep : Char} :
    ∀ {f : List Char}, (∀ x ∈ f, x ≠ sep) → splitSep sep f = [f] := by
  intro f
  induction f with
  | nil => intro _; rfl
  | cons c rest ih =>
    intro h
    have hc : c ≠ sep := h c (List.mem_cons_self c rest)
    have hr := ih (fun x hx => h x (List.mem_cons_of_mem c hx))
    simp only [splitSep, hr, hc, if_false]

/-- Splitting `f ++ sep :: t` with `f` separator-free peels off `f`. -/
theorem splitSep_append {sep : Char} {t : List Char} :
    ∀ {f : List Char}, (∀ x ∈ f, x ≠ sep) →
      splitSep sep (f ++ sep :: t) = f :: splitSep sep t := by
  intro f
  induction f with
  | nil =>
    intro _
    simp only [List.nil_append, splitSep]
    cases hz : splitSep sep t with
    | nil => exact absurd hz (splitSep_ne_nil sep t)
    | cons g gs => simp
  | cons c rest ih =>
    intro h
    have hc : c ≠ sep := h c (List.mem_cons_self c rest)
    have hr := ih (fun x hx => h x (List.mem_cons_of_mem c hx))
    simp only [List.cons_append, splitSep, hc, if_false]
    rw [show rest.append (sep :: t) = rest ++ sep :: t from rfl, hr]

/-- Splitting the join of nonempty, separator-free fields recovers them. -/
theorem splitSep_pyJoin {sep : Char} :
    ∀ {fs : List Str}, fs ≠ [] → (∀ f ∈ fs, ∀ x ∈ f, x ≠ sep) →
      splitSep sep (pyJoin [sep] fs) = fs := by
  intro fs
  induction fs with
  | nil => intro h; exact absurd rfl h
  | cons g rest ih =>
    intro _ hclean
    cases rest with
    | nil => exact splitSep_no_sep (hclean g (List.mem_cons_self g []))
    | cons g2 rest2 =>
      have hg := hclean g (List.mem_cons_self g _)
      have hr := ih (by simp) (fun f hf => hclean f (List.mem_cons_of_mem g hf))
      calc splitSep sep (pyJoin [sep] (g :: g2 :: rest2))
          = splitSep sep (g ++ sep :: pyJoin [sep] (g2 :: rest2)) := by
            simp [pyJoin]
        _ = g :: splitSep sep (pyJoin [sep] (g2 :: rest2)) := splitSep_append hg
        _ = g :: g2 :: rest2 := by rw [hr]

/-- The join of a nonempty first field starts with that field's head. -/
theorem startsHash_pyJoin {sep : Str} {f : Str} (hne : f ≠ []) :
    ∀ fs : List Str, startsHash (pyJoin sep (f :: fs)) = startsHash f := by
  intro fs
  cases fs with
  | nil => rfl
  | cons g rest =>
    cases f with
    | nil => exact absurd rfl hne
    | cons c f2 => simp [pyJoin, startsHash]

/-- Every emitted field is free of tab/newline/CR, nonempty, and contains a
non-whitespace character. -/
theorem rowFields_clean {r : Row} {f : Str} (hf : f ∈ rowFields r) :
    (∀ x ∈ f, x ≠ '\t' ∧ x ≠ '\n' ∧ x ≠ '\r') ∧ f ≠ [] ∧
      ∃ c ∈ f, pyIsSpace c = false := by
  have hs : ∀ t : Str, (∀ x ∈ sanitizeField t, x ≠ '\t' ∧ x ≠ '\n' ∧ x ≠ '\r') ∧
      sanitizeField t ≠ [] ∧ ∃ c ∈ sanitizeField t, pyIsSpace c = false :=
    fun t => ⟨fun _ hx => sanitize_mem_clean hx, sanitize_ne_nil t, sanitize_has_nonspace t⟩
  have hu : (∀ x ∈ "_".toList, x ≠ '\t' ∧ x ≠ '\n' ∧ x ≠ '\r') ∧
      "_".toList ≠ ([] : Str) ∧ ∃ c ∈ "_".toList, pyIsSpace c = false := by
    refine ⟨?_, by decide, ⟨'_', by decide, by decide⟩⟩
    intro x hx
    have : x = '_' := by simpa using hx
    subst this
    exact ⟨by decide, by decide, by decide⟩
  simp only [rowFields, List.mem_cons, List.not_mem_nil, or_false] at hf
  rcases hf with rfl | rfl | rfl | rfl | rfl | rfl | rfl | rfl | rfl | rfl
  · exact hs _
  · exact hs _
  · exact hs _
  · exact hs _
  · exact hu
  · exact hs _
  · exact hs _
  · exact hs _
  · exact hs _
  · exact hs _

/-- An emitted token line has exactly 9 tab characters. -/
theorem tokenLine_count (r : Row) :
    countChar '\t' (tokenLine (rowFields r)) = 9 := by
  have h := @countChar_pyJoin '\t' (rowFields r)
    (by simp [rowFields]) (fun f hf x hx => ((rowFields_clean hf).1 x hx).1)
  unfold tokenLine
  rw [show "\t".toList = ['\t'] from rfl, h]
  rfl

/-- An emitted token line passes the loader's validity filter. -/
theorem tokenLine_valid (r : Row) : lineValid (tokenLine (rowFields r)) = true := by
  unfold lineValid
  rw [tokenLine_count r]
  simp

/-- An emitted token line is not blank. -/
theorem tokenLine_nonblank (r : Row) : pyStrip (tokenLine (rowFields r)) ≠ [] := by
  obtain ⟨c, hc, hns⟩ := sanitize_has_nonspace (rowGetD r.id "_".toList)
  have hmem : c ∈ tokenLine (rowFields r) :=
    mem_pyJoin (List.mem_cons_self _ _) hc
  exact pyStrip_ne_nil_of_mem hmem hns

/-- An emitted token line starts with `#` iff its sanitized ID field does. -/
theorem tokenLine_startsHash (r : Row) :
    startsHash (tokenLine (rowFields r)) =
      startsHash (sanitizeField (rowGetD r.id "_".toList)) := by
  unfold tokenLine rowFields
  exact startsHash_pyJoin (sanitize_ne_nil _) _

/-- The `sent_id` comment line passes the validity filter. -/
theorem sentIdLine_valid (sid : Nat) : lineValid (sentIdLine sid) = true := rfl

/-- The `text` comment line passes the validity filter. -/
theorem textLine_valid (toks : List (List Str)) : lineValid (textLine toks) = true := rfl

/-- A blank line passes the validity filter. -/
theorem blankLine_valid : lineValid [] = true := rfl

/-- The `sent_id` comment line is not blank. -/
theorem sentIdLine_nonblank (sid : Nat) : pyStrip (sentIdLine sid) ≠ [] := by
  have h : sentIdLine sid = '#' :: (" sent_id = ".toList ++ (Nat.repr sid).toList) := rfl
  rw [h]
  exact pyStrip_ne_nil_of_mem (List.mem_cons_self _ _) (by decide)

/-- The `text` comment line is not blank. -/
theorem textLine_nonblank (toks : List (List Str)) : pyStrip (textLine toks) ≠ [] := by
  have h : textLine toks =
      '#' :: (" text = ".toList ++ pyJoin " ".toList (toks.map (fun t => t.getD 1 []))) := rfl
  rw [h]
  exact pyStrip_ne_nil_of_mem (List.mem_cons_self _ _) (by decide)

/-- The comment lines start with the comment marker. -/
theorem sentIdLine_startsHash (sid : Nat) : startsHash (sentIdLine sid) = true := rfl

/-- The text line starts with the comment marker. -/
theorem textLine_startsHash (toks : List (List Str)) : startsHash (textLine toks) = true := rfl

/-- Consuming a run of non-blank lines accumulates them. -/
theorem splitBlocksAux_run {ns : List Line} (h : ∀ l ∈ ns, pyStrip l ≠ []) :
    ∀ (acc rest : List Line),
      splitBlocksAux acc (ns ++ rest) = splitBlocksAux (ns.reverse ++ acc) rest := by
  induction ns with
  | nil => intro acc rest; simp
  | cons l ns2 ih =>
    intro acc rest
    have hl : pyStrip l ≠ [] := h l (List.mem_cons_self l ns2)
    have h2 : ∀ x ∈ ns2, pyStrip x ≠ [] := fun x hx => h x (List.mem_cons_of_mem l hx)
    simp only [List.cons_append, splitBlocksAux, hl, if_false]
    rw [show ns2.append rest = ns2 ++ rest from rfl, ih h2 (l :: acc) rest]
    simp

/-- A single nonempty run of non-blank lines closed by a blank line forms one
block. -/
theorem splitBlocks_single {bls : List Line} (h : ∀ l ∈ bls, pyStrip l ≠ [])
    (hne : bls ≠ []) : splitBlocks (bls ++ [[]]) = [bls] := by
  unfold splitBlocks
  rw [splitBlocksAux_run h [] [[]]]
  have hacc : (bls.reverse ++ []).isEmpty = false := by
    cases hb : bls.reverse with
    | nil => exact absurd (List.reverse_eq_nil_iff.mp hb) hne
    | cons x xs => simp
  simp only [splitBlocksAux, show pyStrip ([] : Line) = [] from rfl, if_true, hacc]
  simp [splitBlocksAux]

/-- `exceptOk` succeeds exactly on `ok` values. -/
theorem exceptOk_iff {e a : Type} {x : Except e a} :
    exceptOk x = true ↔ ∃ v, x = .ok v := by
  cases x <;> simp [exceptOk]

/-- Token construction succeeds when both coercions do, and preserves the
FORM field. -/
theorem mkToken_ok_of {t : LibToken} (h1 : exceptOk (coerceIdHead t.id) = true)
    (h2 : exceptOk (coerceIdHead t.head) = true) :
    ∃ tok, mkToken t = .ok tok ∧ tok.form = t.form := by
  obtain ⟨i, hi⟩ := exceptOk_iff.mp h1
  obtain ⟨hd, hh⟩ := exceptOk_iff.mp h2
  refine ⟨{ id := i, form := t.form, lemma_ := t.lemma_, upos := t.upos,
            xpos := t.xpos, feats := t.feats, head := hd, deprel := t.deprel,
            deps := t.deps, misc := t.misc }, ?_, rfl⟩
  unfold mkToken
  rw [hi, hh]

/-- Inversion for successful Token construction: the stored `id`, `head` and
`form` come from the coercions and the raw FORM field. -/
theorem mkToken_inv {t : LibToken} {tok : Token} (h : mkToken t = .ok tok) :
    coerceIdHead t.id = .ok tok.id ∧ coerceIdHead t.head = .ok tok.head ∧
      tok.form = t.form := by
  unfold mkToken at h
  cases hi : coerceIdHead t.id with
  | error e => rw [hi] at h; simp at h
  | ok i =>
    rw [hi] at h
    cases hh : coerceIdHead t.head with
    | error e => rw [hh] at h; simp at h
    | ok hd =>
      rw [hh] at h
      injection h with h2
      subst h2
      exact ⟨rfl, rfl, rfl⟩

/-- Building the Token list succeeds when every line's coercions succeed,
and preserves the FORM fields in order. -/
theorem tokensMapM_ok :
    ∀ {ts : List LibToken},
      (∀ t ∈ ts, exceptOk (coerceIdHead t.id) = true ∧
                 exceptOk (coerceIdHead t.head) = true) →
      ∃ toks, tokensMapM ts = .ok toks ∧
        toks.map Token.form = ts.map LibToken.form ∧ toks.length = ts.length := by
  intro ts
  induction ts with
  | nil => intro _; exact ⟨[], rfl, rfl, rfl⟩
  | cons t rest ih =>
    intro h
    have ht := h t (List.mem_cons_self t rest)
    obtain ⟨tok, htok, hform⟩ := mkToken_ok_of ht.1 ht.2
    obtain ⟨toks, htoks, hforms, hlen⟩ := ih (fun x hx => h x (List.mem_cons_of_mem t hx))
    refine ⟨tok :: toks, ?_, ?_, ?_⟩
    · simp only [tokensMapM, htok, htoks]
    · simp [hform, hforms]
    · simp [hlen]

/-- With no boundary rows, the whole input flushes as one block at
end-of-file. -/
theorem serializeAux_noBoundary :
    ∀ {rows : List Row}, (∀ r ∈ rows, isSentenceBoundary r = false) →
      ∀ (buf : List (List Str)) (sid : Nat), buf ≠ [] ∨ rows ≠ [] →
        serializeAux rows buf sid = mkBlock sid (buf ++ rows.map rowFields) := by
  intro rows
  induction rows with
  | nil =>
    intro _ buf sid h
    rcases h with h | h
    · cases buf with
      | nil => exact absurd rfl h
      | cons b bs => simp [serializeAux]
    · exact absurd rfl h
  | cons r rest ih =>
    intro hnb buf sid _
    have hr : isSentenceBoundary r = false := hnb r (List.mem_cons_self r rest)
    have hrest : ∀ x ∈ rest, isSentenceBoundary x = false :=
      fun x hx => hnb x (List.mem_cons_of_mem r hx)
    simp only [serializeAux, hr, Bool.false_eq_true, if_false]
    rw [ih hrest (buf ++ [rowFields r]) sid (Or.inl (by simp))]
    simp [mkBlock]

/-- The serializer's output is a sequence of consecutive numbered blocks,
each nonempty, whose tokens all come from the input rows (or the initial
buffer). -/
theorem serializeAux_blocks :
    ∀ (rows : List Row) (buf : List (List Str)) (sid : Nat),
      ∃ tokss : List (List (List Str)),
        serializeAux rows buf sid = blocksFrom sid tokss ∧
        (∀ ts ∈ tokss, ts ≠ []) ∧
        (∀ ts ∈ tokss, ∀ t ∈ ts, t ∈ buf ∨ ∃ r ∈ rows, t = rowFields r) := by
  intro rows
  induction rows with
  | nil =>
    intro buf sid
    cases buf with
    | nil => exact ⟨[], by simp [serializeAux, blocksFrom], by simp, by simp⟩
    | cons b bs =>
      refine ⟨[b :: bs], by simp [serializeAux, blocksFrom], by simp, ?_⟩
      intro ts hts t ht
      have : ts = b :: bs := by simpa using hts
      subst this
      exact Or.inl ht
  | cons r rest ih =>
    intro buf sid
    by_cases hb : isSentenceBoundary r = true
    · cases buf with
      | nil =>
        obtain ⟨tokss, h1, h2, h3⟩ := ih [] sid
        refine ⟨tokss, by simpa [serializeAux, hb] using h1, h2, ?_⟩
        intro ts hts t ht
        rcases h3 ts hts t ht with h | ⟨r2, hr2, he⟩
        · simp at h
        · exact Or.inr ⟨r2, List.mem_cons_of_mem r hr2, he⟩
      | cons b bs =>
        obtain ⟨tokss, h1, h2, h3⟩ := ih [] (sid + 1)
        refine ⟨(b :: bs) :: tokss, ?_, ?_, ?_⟩
        · simp only [serializeAux, hb, if_true, List.isEmpty_cons, Bool.false_eq_true,
            if_false, blocksFrom]
          rw [h1]
        · intro ts hts
          rcases List.mem_cons.mp hts with rfl | h
          · simp
          · exact h2 ts h
        · intro ts hts t ht
          rcases List.mem_cons.mp hts with rfl | h
          · exact Or.inl ht
          · rcases h3 ts h t ht with h4 | ⟨r2, hr2, he⟩
            · simp at h4
            · exact Or.inr ⟨r2, List.mem_cons_of_mem r hr2, he⟩
    · have hbf : isSentenceBoundary r = false := by
        revert hb; cases isSentenceBoundary r <;> simp
      obtain ⟨tokss, h1, h2, h3⟩ := ih (buf ++ [rowFields r]) sid
      refine ⟨tokss, by simpa [serializeAux, hbf] using h1, h2, ?_⟩
      intro ts hts t ht
      rcases h3 ts hts t ht with h | ⟨r2, hr2, he⟩
      · rcases List.mem_append.mp h with h4 | h4
        · exact Or.inl h4
        · exact Or.inr ⟨r, List.mem_cons_self r rest, by simpa using h4⟩
      · exact Or.inr ⟨r2, List.mem_cons_of_mem r hr2, he⟩

/-! ## Claim theorems -/

/-- C8: for every input file, the serializer samples the first 2048
characters and chooses tab as the delimiter iff the tab count in the sample
is at least the comma count; otherwise it chooses comma. -/
theorem inferSep_spec (content : Str) :
    (inferSep content = '\t' ∨ inferSep content = ',') ∧
    (inferSep content = '\t' ↔
      countChar ',' (content.take 2048) ≤ countChar '\t' (content.take 2048)) := by
  unfold inferSep
  constructor
  · split
    · exact Or.inl rfl
    · exact Or.inr rfl
  · split
    · next h => exact iff_of_true rfl h
    · next h => exact iff_of_false (by decide) h

/-- Witness for C8 at a concrete sample. -/
theorem inferSep_spec_witness :
    inferSep "a\tb,c".toList = '\t' ∨ inferSep "a\tb,c".toList = ',' :=
  (inferSep_spec ("a\tb,c".toList)).1

/-- C3: a row whose stripped `id` and `lemma` source values are both empty or
the placeholder flushes the buffered tokens as one sentence (producing no
token itself) and resets the buffer; tokens still buffered at end-of-file are
flushed as a final sentence. -/
theorem boundary_flush_spec :
    (∀ (r : Row) (rest : List Row) (buf : List (List Str)) (sid : Nat),
        (pyStrip (rowGetD r.id []) = [] ∨ pyStrip (rowGetD r.id []) = "_".toList) →
        (pyStrip (rowGetD r.lemma_ []) = [] ∨ pyStrip (rowGetD r.lemma_ []) = "_".toList) →
        serializeAux (r :: rest) buf sid =
          if buf.isEmpty then serializeAux rest [] sid
          else mkBlock sid buf ++ serializeAux rest [] (sid + 1)) ∧
    (∀ (buf : List (List Str)) (sid : Nat), buf ≠ [] →
        serializeAux [] buf sid = mkBlock sid buf) := by
  constructor
  · intro r rest buf sid h1 h2
    have hb : isSentenceBoundary r = true := by
      unfold isSentenceBoundary
      rcases h1 with h1 | h1 <;> rcases h2 with h2 | h2 <;> simp [h1, h2]
    cases buf with
    | nil => simp [serializeAux, hb]
    | cons b bs => simp [serializeAux, hb]
  · intro buf sid h
    cases buf with
    | nil => exact absurd rfl h
    | cons b bs => simp [serializeAux]

/-- Witness for C3: a boundary row flushes a one-token buffer, and a
nonempty buffer is flushed at end-of-file. -/
theorem boundary_flush_spec_witness :
    serializeAux [rowBoundaryEx] [rowFields rowHello] 1 =
      mkBlock 1 [rowFields rowHello] ++ serializeAux [] [] 2 ∧
    serializeAux [] [rowFields rowHello] 5 = mkBlock 5 [rowFields rowHello] := by
  constructor
  · have h := boundary_flush_spec.1 rowBoundaryEx [] [rowFields rowHello] 1
      (Or.inl (by decide)) (Or.inr (by decide))
    simpa using h
  · exact boundary_flush_spec.2 [rowFields rowHello] 5 (by simp)

/-- C5: numeric coercion at Token construction sends the float-like `id` or
`head` string `3.0` to the integer `3` and keeps the non-numeric string
`1-2` as the literal text; whenever coercion falls back to a string, that
string is exactly the original raw value. -/
theorem coercion_spec :
    (∀ (t : LibToken) (tok : Token), mkToken t = .ok tok →
        (t.id = "3.0".toList → tok.id = PyVal.int 3) ∧
        (t.head = "3.0".toList → tok.head = PyVal.int 3) ∧
        (t.id = "1-2".toList → tok.id = PyVal.str "1-2".toList) ∧
        (t.head = "1-2".toList → tok.head = PyVal.str "1-2".toList)) ∧
    (∀ (s v : Str), coerceIdHead s = .ok (.str v) → v = s) := by
  constructor
  · intro t tok h
    obtain ⟨hid, hhead, _⟩ := mkToken_inv h
    refine ⟨?_, ?_, ?_, ?_⟩ <;> intro he
    · rw [he] at hid
      rw [show coerceIdHead "3.0".toList = Except.ok (PyVal.int 3) from by decide] at hid
      injection hid with h2
      exact h2.symm
    · rw [he] at hhead
      rw [show coerceIdHead "3.0".toList = Except.ok (PyVal.int 3) from by decide] at hhead
      injection hhead with h2
      exact h2.symm
    · rw [he] at hid
      rw [show coerceIdHead "1-2".toList = Except.ok (PyVal.str "1-2".toList) from by decide] at hid
      injection hid with h2
      exact h2.symm
    · rw [he] at hhead
      rw [show coerceIdHead "1-2".toList = Except.ok (PyVal.str "1-2".toList) from by decide] at hhead
      injection hhead with h2
      exact h2.symm
  · intro s v h
    unfold coerceIdHead at h
    cases hp : parsePyFloat s with
    | none =>
      rw [hp] at h
      injection h with h2
      injection h2 with h3
      exact h3.symm
    | some f =>
      rw [hp] at h
      cases f with
      | finite m e => simp at h
      | inf => simp at h
      | neginf => simp at h
      | nan =>
        injection h with h2
        injection h2 with h3
        exact h3.symm

/-- Witness for C5: a concrete token line with `id = 3.0`, `head = 1-2`. -/
theorem coercion_spec_witness :
    tokCoerce.id = PyVal.int 3 ∧ tokCoerce.head = PyVal.str "1-2".toList :=
  ⟨(coercion_spec.1 libTokCoerce tokCoerce (by decide)).1 rfl,
   (coercion_spec.1 libTokCoerce tokCoerce (by decide)).2.2.2 rfl⟩

/-- C6 counterexample: construction of a Token whose `id` field is the text
`inf` raises — `float("inf")` succeeds and `int(inf)` raises an
`OverflowError` that the `except (ValueError, TypeError)` clause does not
catch — so the coercion is not total. -/
theorem coercion_total_cex :
    mkToken libTokInf = .error () ∧ coerceIdHead "inf".toList = .error () := by
  constructor
  · rfl
  · rfl

/-- C6 (amended): Token construction's numeric coercion never raises unless
the field text parses as an infinite float (`inf` / `infinity` spellings or a
decimal overflowing the double range); in every other case a coercion
failure falls back to the original text. -/
theorem coercion_total_amended :
    (∀ s : Str, parsePyFloat s ≠ some PyFloat.inf →
        parsePyFloat s ≠ some PyFloat.neginf → ∃ v, coerceIdHead s = .ok v) ∧
    (∀ s : Str, parsePyFloat s = Option.none → coerceIdHead s = .ok (.str s)) := by
  constructor
  · intro s h1 h2
    unfold coerceIdHead
    cases hp : parsePyFloat s with
    | none => exact ⟨_, rfl⟩
    | some f =>
      cases f with
      | finite m e => exact ⟨_, rfl⟩
      | inf => exact absurd hp h1
      | neginf => exact absurd hp h2
      | nan => exact ⟨_, rfl⟩
  · intro s hp
    unfold coerceIdHead
    rw [hp]

/-- Witness for the amended C6 at a concrete non-numeric string. -/
theorem coercion_total_amended_witness : ∃ v, coerceIdHead "abc".toList = .ok v :=
  coercion_total_amended.1 "abc".toList (by decide) (by decide)

/-- C10: a loaded token whose ID or HEAD column is the placeholder `_` (as
the serializer emits for missing source values) keeps the literal string
`_` — never `None` — as its `id`/`head` attribute. -/
theorem underscore_preserved :
    (∀ (t : LibToken) (tok : Token), mkToken t = .ok tok →
        (t.id = "_".toList →
          tok.id = PyVal.str "_".toList ∧ tok.id ≠ PyVal.none) ∧
        (t.head = "_".toList →
          tok.head = PyVal.str "_".toList ∧ tok.head ≠ PyVal.none)) ∧
    sanitizeField (rowGetD Option.none "_".toList) = "_".toList := by
  constructor
  · intro t tok h
    obtain ⟨hid, hhead, _⟩ := mkToken_inv h
    constructor <;> intro he
    · rw [he] at hid
      rw [show coerceIdHead "_".toList = Except.ok (PyVal.str "_".toList) from by decide] at hid
      injection hid with h2
      rw [← h2]
      exact ⟨rfl, by decide⟩
    · rw [he] at hhead
      rw [show coerceIdHead "_".toList = Except.ok (PyVal.str "_".toList) from by decide] at hhead
      injection hhead with h2
      rw [← h2]
      exact ⟨rfl, by decide⟩
  · rfl

/-- Witness for C10: a concrete token line with placeholder ID and HEAD. -/
theorem underscore_preserved_witness :
    tokUnderscoreRes.id = PyVal.str "_".toList ∧
      tokUnderscoreRes.head = PyVal.str "_".toList :=
  ⟨((underscore_preserved.1 libTokUnderscore tokUnderscoreRes (by decide)).1 rfl).1,
   ((underscore_preserved.1 libTokUnderscore tokUnderscoreRes (by decide)).2 rfl).1⟩

/-- C7: a failure on one input file is caught, logs exactly one error, and
does not stop the batch: every file contributes one slot, the failure count
is the number of failing files, and in a 3-file batch with file 2 failing,
files 1 and 3 still produce their full output. -/
theorem batch_resilience :
    (∀ inputs : List (Except Unit (List Row)),
        (processDirectory inputs).1.length = inputs.length ∧
        (processDirectory inputs).2 =
          (inputs.filter (fun f => !exceptOk f)).length) ∧
    (∀ rows1 rows3 : List Row,
        processDirectory [.ok rows1, .error (), .ok rows3] =
          ([some (serialize rows1), Option.none, some (serialize rows3)], 1)) := by
  constructor
  · intro inputs
    induction inputs with
    | nil => exact ⟨rfl, rfl⟩
    | cons f rest ih =>
      cases f with
      | ok rows =>
        refine ⟨?_, ?_⟩
        · simp [processDirectory, convertFile, ih.1]
        · simp [processDirectory, convertFile, exceptOk, ih.2]
      | error e =>
        refine ⟨?_, ?_⟩
        · simp [processDirectory, convertFile, ih.1]
        · simp [processDirectory, convertFile, exceptOk, ih.2]
          omega
  · intro rows1 rows3
    rfl

/-- C2: the serializer's output is a sequence of sentence blocks (sent-id
comment, text comment, token lines, blank line — the shape of `mkBlock`,
numbered consecutively from 1 by `blocksFrom`), where every token line holds
exactly 10 fields joined by exactly 9 tabs, each field free of tab, newline
and carriage return and rendered nonempty. -/
theorem serializer_wellformed (rows : List Row) :
    ∃ tokss : List (List (List Str)),
      serialize rows = blocksFrom 1 tokss ∧
      (∀ ts ∈ tokss, ts ≠ []) ∧
      (∀ ts ∈ tokss, ∀ t ∈ ts,
        t.length = 10 ∧
        countChar '\t' (tokenLine t) = 9 ∧
        ∀ f ∈ t, (∀ x ∈ f, x ≠ '\t' ∧ x ≠ '\n' ∧ x ≠ '\r') ∧ f ≠ []) := by
  obtain ⟨tokss, h1, h2, h3⟩ := serializeAux_blocks rows [] 1
  refine ⟨tokss, h1, h2, ?_⟩
  intro ts hts t ht
  rcases h3 ts hts t ht with h | ⟨r, _, rfl⟩
  · simp at h
  · refine ⟨rfl, tokenLine_count r, ?_⟩
    intro f hf
    exact ⟨(rowFields_clean hf).1, (rowFields_clean hf).2.1⟩

/-- Witness for C2 on a concrete one-row input. -/
theorem serializer_wellformed_witness :
    ∃ tokss : List (List (List Str)),
      serialize [rowHello] = blocksFrom 1 tokss ∧ ∀ ts ∈ tokss, ts ≠ [] := by
  obtain ⟨tokss, h1, h2, _⟩ := serializer_wellformed [rowHello]
  exact ⟨tokss, h1, h2⟩

/-- C9: the serializer never writes an empty sentence block — every emitted
block holds at least one token line, the blocks carry the consecutive
sent-ids 1..K (`blocksFrom 1`), and a boundary row seen with an empty buffer
emits nothing and does not advance the sentence counter. -/
theorem no_empty_blocks :
    (∀ rows : List Row,
        ∃ tokss : List (List (List Str)),
          serialize rows = blocksFrom 1 tokss ∧ ∀ ts ∈ tokss, ts ≠ []) ∧
    (∀ (r : Row) (rest : List Row) (sid : Nat), isSentenceBoundary r = true →
        serializeAux (r :: rest) [] sid = serializeAux rest [] sid) := by
  constructor
  · intro rows
    obtain ⟨tokss, h1, h2, _⟩ := serializeAux_blocks rows [] 1
    exact ⟨tokss, h1, h2⟩
  · intro r rest sid h
    simp [serializeAux, h]

/-- Witness for C9: a leading boundary row is a no-op. -/
theorem no_empty_blocks_witness :
    serializeAux [rowBoundaryEx] [] 1 = serializeAux [] [] 1 :=
  no_empty_blocks.2 rowBoundaryEx [] 1 (by decide)

/-- C4: a line is retained by the loader's validity filter iff it starts
with the comment marker, is blank, or has exactly 9 tab characters; a file
with one 5-field line between two valid one-token sentences loads both
sentences and silently drops only the malformed line. -/
theorem validity_filter_spec :
    (∀ (ls : List Line) (l : Line), l ∈ cleanLines ls ↔
        l ∈ ls ∧ (startsHash l = true ∨ pyStrip l = [] ∨ countChar '\t' l = 9)) ∧
    badLine ∈ scenarioLines ∧
    badLine ∉ cleanLines scenarioLines ∧
    (loadFile "f.conllu".toList scenarioLines).map
        (fun ss => ss.map (fun s => s.tokens.length)) = Except.ok [1, 1] := by
  refine ⟨?_, by decide, by decide, by decide⟩
  intro ls l
  unfold cleanLines
  rw [List.mem_filter]
  constructor
  · rintro ⟨h1, h2⟩
    refine ⟨h1, ?_⟩
    unfold lineValid at h2
    simp only [Bool.or_eq_true, beq_iff_eq] at h2
    rcases h2 with (h | h) | h
    · exact Or.inl h
    · exact Or.inr (Or.inl h)
    · exact Or.inr (Or.inr h)
  · rintro ⟨h1, h2⟩
    refine ⟨h1, ?_⟩
    unfold lineValid
    simp only [Bool.or_eq_true, beq_iff_eq]
    rcases h2 with h | h | h
    · exact Or.inl (Or.inl h)
    · exact Or.inl (Or.inr h)
    · exact Or.inr h

/-- Witness for C4: a concrete comment line is retained. -/
theorem validity_filter_spec_witness :
    "# a = b".toList ∈ cleanLines ["# a = b".toList] :=
  (validity_filter_spec.1 ["# a = b".toList] "# a = b".toList).mpr
    ⟨by decide, Or.inl rfl⟩

/-- Unpack `rowWellFormed`. -/
theorem rowWellFormed_parts {r : Row} (h : rowWellFormed r = true) :
    isSentenceBoundary r = false ∧
    startsHash (sanitizeField (rowGetD r.id "_".toList)) = false ∧
    exceptOk (coerceIdHead (sanitizeField (rowGetD r.id "_".toList))) = true ∧
    exceptOk (coerceIdHead (sanitizeField (rowGetD r.head "_".toList))) = true := by
  unfold rowWellFormed at h
  simp only [Bool.and_eq_true, Bool.not_eq_true'] at h
  exact ⟨h.1.1.1, h.1.1.2, h.1.2, h.2⟩

/-- C1 (amended): serializing a nonempty list of well-formed token rows
(no boundary rows, sanitized ID not starting with the comment marker, and
`id`/`head` surviving coercion) and loading the output yields exactly one
Sentence whose tokens are the input rows' tokens in the original order. -/
theorem roundtrip_amended (fname : Str) (rows : List Row) (hne : rows ≠ [])
    (hwf : ∀ r ∈ rows, rowWellFormed r = true) :
    ∃ s : Sentence,
      loadFile fname (serialize rows) = .ok [s] ∧
      s.tokens.length = rows.length ∧
      s.tokens.map Token.form =
        rows.map (fun r => sanitizeField (rowGetD r.transcription "_".toList)) := by
  have hnb : ∀ r ∈ rows, isSentenceBoundary r = false :=
    fun r hr => (rowWellFormed_parts (hwf r hr)).1
  have hser : serialize rows = mkBlock 1 (rows.map rowFields) := by
    have h := serializeAux_noBoundary hnb [] 1 (Or.inr hne)
    simpa [serialize] using h
  have hclean : cleanLines (mkBlock 1 (rows.map rowFields)) =
      mkBlock 1 (rows.map rowFields) := by
    apply List.filter_eq_self.mpr
    intro l hl
    rw [mkBlock] at hl
    rcases List.mem_cons.mp hl with rfl | hl2
    · exact sentIdLine_valid 1
    rcases List.mem_cons.mp hl2 with rfl | hl3
    · exact textLine_valid _
    rcases List.mem_append.mp hl3 with hl4 | hl5
    · obtain ⟨t, ht, rfl⟩ := List.mem_map.mp hl4
      obtain ⟨r, hr, rfl⟩ := List.mem_map.mp ht
      exact tokenLine_valid r
    · have hb : l = [] := by simpa using hl5
      subst hb
      exact blankLine_valid
  have hblocks : splitBlocks (mkBlock 1 (rows.map rowFields)) =
      [sentIdLine 1 :: textLine (rows.map rowFields) ::
        (rows.map rowFields).map tokenLine] := by
    have hshape : mkBlock 1 (rows.map rowFields) =
        (sentIdLine 1 :: textLine (rows.map rowFields) ::
          (rows.map rowFields).map tokenLine) ++ [[]] := by
      simp [mkBlock]
    rw [hshape]
    apply splitBlocks_single
    · intro l hl
      rcases List.mem_cons.mp hl with rfl | hl2
      · exact sentIdLine_nonblank 1
      rcases List.mem_cons.mp hl2 with rfl | hl3
      · exact textLine_nonblank _
      obtain ⟨t, ht, rfl⟩ := List.mem_map.mp hl3
      obtain ⟨r, hr, rfl⟩ := List.mem_map.mp ht
      exact tokenLine_nonblank r
    · simp
  have hfilter : (sentIdLine 1 :: textLine (rows.map rowFields) ::
      (rows.map rowFields).map tokenLine).filter (fun l => !startsHash l) =
      (rows.map rowFields).map tokenLine := by
    rw [List.filter_cons_of_neg (by simp [sentIdLine_startsHash]),
        List.filter_cons_of_neg (by simp [textLine_startsHash])]
    apply List.filter_eq_self.mpr
    intro l hl
    obtain ⟨t, ht, rfl⟩ := List.mem_map.mp hl
    obtain ⟨r, hr, rfl⟩ := List.mem_map.mp ht
    rw [tokenLine_startsHash r, (rowWellFormed_parts (hwf r hr)).2.1]
    rfl
  have hsplit : ((rows.map rowFields).map tokenLine).map
      (fun l => fieldsToToken (splitSep '\t' l)) =
      rows.map (fun r => fieldsToToken (rowFields r)) := by
    rw [List.map_map, List.map_map]
    apply List.map_congr_left
    intro r hr
    have hrec := @splitSep_pyJoin '\t' (rowFields r)
      (by simp [rowFields]) (fun f hf x hx => ((rowFields_clean hf).1 x hx).1)
    simp only [Function.comp]
    rw [show tokenLine (rowFields r) = pyJoin ['\t'] (rowFields r) from rfl, hrec]
  have hcoerce : ∀ lt ∈ rows.map (fun r => fieldsToToken (rowFields r)),
      exceptOk (coerceIdHead lt.id) = true ∧
      exceptOk (coerceIdHead lt.head) = true := by
    intro lt hlt
    obtain ⟨r, hr, rfl⟩ := List.mem_map.mp hlt
    exact ⟨(rowWellFormed_parts (hwf r hr)).2.2.1,
           (rowWellFormed_parts (hwf r hr)).2.2.2⟩
  obtain ⟨toksT, hT, hforms, hlen⟩ := tokensMapM_ok hcoerce
  have hmk : ∃ s : Sentence,
      mkSentence fname (sentIdLine 1 :: textLine (rows.map rowFields) ::
        (rows.map rowFields).map tokenLine) = .ok s ∧ s.tokens = toksT := by
    unfold mkSentence
    rw [hfilter, hsplit, hT]
    exact ⟨_, rfl, rfl⟩
  obtain ⟨s, hs, hstoks⟩ := hmk
  refine ⟨s, ?_, ?_, ?_⟩
  · unfold loadFile
    rw [hser, hclean, hblocks]
    simp only [sentencesMapM, hs]
  · rw [hstoks, hlen]
    simp
  · rw [hstoks, hforms, List.map_map]
    apply List.map_congr_left
    intro r _
    rfl

/-- C1 counterexample: the round-trip claim fails as stated — a file with 0
rows yields 0 sentences (not 1); a token row whose ID begins with `#` yields
1 sentence with 0 tokens (the emitted line parses as a comment); a token row
whose ID is `inf` makes loading abort entirely. -/
theorem roundtrip_cex :
    loadFile "a.conllu".toList (serialize []) = .ok [] ∧
    (loadFile "a.conllu".toList (serialize [rowHashId])).map
        (fun ss => ss.map (fun s => s.tokens.length)) = .ok [0] ∧
    loadFile "a.conllu".toList (serialize [rowInfId]) = .error () := by
  refine ⟨by decide, by decide, by decide⟩

/-- Witness for the amended C1 on a concrete two-row file. -/
theorem roundtrip_amended_witness :
    ∃ s : Sentence,
      loadFile "a.conllu".toList (serialize [rowHello, rowWorld]) = .ok [s] ∧
      s.tokens.length = 2 := by
  obtain ⟨s, h1, h2, _⟩ := roundtrip_amended "a.conllu".toList [rowHello, rowWorld]
    (by decide) (by decide)
  exact ⟨s, h1, h2⟩
